import Mathlib

/-!
Shallow embedding of `src/code.py`, a single-file bookkeeping CLI.

Modelling choices, shared by all definitions below:

* A CSV file is modelled at two levels of abstraction.  For the load/save
  round trip it is a `List (List String)`: one list of cell values per row,
  the first row being the header (Python's `csv` module round-trips cell
  values through its quoting rules, which are abstracted away here).  For
  `ensure_csv_file`, which inspects the raw first line, it is a
  `List String` of physical lines, split naively on commas (quoting again
  abstracted).
* Python `float` amounts are modelled as `ℚ`.  `str(float)` / `float(str)`
  are modelled by an exact decimal renderer and parser pair
  (`floatStr` / `parseFloat`); Python guarantees this round trip for its
  floats, and the parser also reproduces `float()` failures on
  non-numeric text.  Exponent notation, `inf`/`nan` and surrounding
  whitespace accepted by Python's `float()` are not exercised by any claim
  and are not modelled.
* `input()` interaction is modelled by passing the entered strings (and the
  current date) as explicit arguments; `print` output is dropped.
* Python dicts keyed by the five field names are modelled by the fixed
  record structure `Record`; dict insertion order (used by
  `calculate_monthly_expenses`) is modelled by an association list.
-/

/-! ### Characters, digits and Python-style string helpers -/

/-- The decimal digit character for `d` (meaningful for `d < 10`). -/
def digitChar (d : Nat) : Char := Char.ofNat (48 + d)

/-- The numeric value of a decimal digit character, if it is one. -/
def charDigit? (c : Char) : Option Nat :=
  if c.isDigit then some (c.toNat - 48) else none

/-- Value of a little-endian list of digit characters; `none` if any
character is not a digit.  The empty list has value `0`. -/
def chVal : List Char → Option Nat
  | [] => some 0
  | c :: cs =>
    match charDigit? c, chVal cs with
    | some d, some n => some (d + 10 * n)
    | _, _ => none

/-- Value of a big-endian list of digit characters. -/
def digitsVal (l : List Char) : Option Nat := chVal l.reverse

/-- Big-endian digit characters of `n` (`"0"` for zero). -/
def natChars (n : Nat) : List Char :=
  if n = 0 then ['0'] else ((Nat.digits 10 n).map digitChar).reverse

/-- Big-endian digit characters of `r` zero-padded on the left to width
`k`; used for the fractional part of a decimal rendering. -/
def fracChars (r k : Nat) : List Char :=
  ((Nat.digits 10 r ++ List.replicate (k - (Nat.digits 10 r).length) 0).map digitChar).reverse

/-- Number of times `p` divides `n`, computed with explicit fuel so that it
is structurally recursive (fuel `n` itself always suffices). -/
def multP (p : Nat) : Nat → Nat → Nat
  | 0, _ => 0
  | fuel + 1, n => if 2 ≤ n ∧ n % p = 0 then multP p fuel (n / p) + 1 else 0

/-- An exponent `k` with `den ∣ 10 ^ k` whenever `den` has only `2` and `5`
as prime factors. -/
def decExp (den : Nat) : Nat := max (multP 2 den den) (multP 5 den den)

/-- `q` is exactly representable as a finite decimal — the rationals that
arise as Python floats written with `str`. -/
def IsDecimal (q : ℚ) : Prop := q.den ∣ 10 ^ decExp q.den

instance (q : ℚ) : Decidable (IsDecimal q) := Nat.decidable_dvd _ _

/-- Decimal rendering of `q`, modelling Python `str(float)`: optional minus
sign, integer part, `'.'`, and at least one fractional digit (so `100`
renders as `"100.0"`, as Python prints it).  Exact when `IsDecimal q`. -/
def floatStrChars (q : ℚ) : List Char :=
  let k := max 1 (decExp q.den)
  let m := q.num.natAbs * 10 ^ k / q.den
  (if q.num < 0 then ['-'] else []) ++ natChars (m / 10 ^ k) ++ '.' :: fracChars (m % 10 ^ k) k

/-- String form of `floatStrChars`. -/
def floatStr (q : ℚ) : String := ⟨floatStrChars q⟩

/-- Parse an unsigned decimal: digits, optionally followed by `'.'` and
digits, with at least one digit overall (Python accepts `"5."`, `".5"`). -/
def parsePos (l : List Char) : Option ℚ :=
  match l.dropWhile (·.isDigit) with
  | [] =>
    if l.takeWhile (·.isDigit) = [] then none
    else (digitsVal (l.takeWhile (·.isDigit))).map (fun n => (n : ℚ))
  | c :: fp =>
    if c = '.' then
      if fp.all (·.isDigit) ∧ (l.takeWhile (·.isDigit) ≠ [] ∨ fp ≠ []) then
        match digitsVal (l.takeWhile (·.isDigit)), digitsVal fp with
        | some a, some b => some ((a : ℚ) + (b : ℚ) / 10 ^ fp.length)
        | _, _ => none
      else none
    else none

/-- Parse a signed decimal character list, modelling Python `float()` on
the decimal forms it accepts (`"-3.5"`, `"+2"`, `".5"`, …). -/
def parseFloatChars : List Char → Option ℚ
  | [] => none
  | c :: rest =>
    if c = '-' then (parsePos rest).map (fun q => -q)
    else if c = '+' then parsePos rest
    else parsePos (c :: rest)

/-- Model of Python `float(s)`: `some` value on success, `none` where
`float` raises `ValueError`. -/
def parseFloat (s : String) : Option ℚ := parseFloatChars s.data

/-- Nonempty all-digit run, used by the model of Python `int(s)`. -/
def parseDigits (l : List Char) : Option Nat :=
  if l = [] then none else digitsVal l

/-- Model of Python `int(s)`: optional sign then a nonempty digit run;
`none` where `int` raises `ValueError`. -/
def parseInt (s : String) : Option Int :=
  match s.data with
  | [] => none
  | c :: rest =>
    if c = '-' then (parseDigits rest).map (fun n => -(n : Int))
    else if c = '+' then (parseDigits rest).map (fun n => (n : Int))
    else (parseDigits (c :: rest)).map (fun n => (n : Int))

/-- Model of Python `str.lower()` (ASCII, which covers every string the
program compares). -/
def lowerStr (s : String) : String := ⟨s.data.map Char.toLower⟩

/-- Model of the Python slice `s[:n]`. -/
def takeStr (n : Nat) (s : String) : String := ⟨s.data.take n⟩

/-- Model of Python `str.strip()`. -/
def stripStr (s : String) : String :=
  ⟨((s.data.dropWhile Char.isWhitespace).reverse.dropWhile Char.isWhitespace).reverse⟩

/-- Model of `','.join(...)`. -/
def joinComma : List String → String
  | [] => ""
  | [s] => s
  | s :: rest => s ++ "," ++ joinComma rest

/-- Split a character list at every occurrence of `sep`. -/
def splitOnChar (sep : Char) : List Char → List (List Char)
  | [] => [[]]
  | c :: cs =>
    match splitOnChar sep cs with
    | [] => [[c]]
    | h :: t => if c = sep then [] :: h :: t else (c :: h) :: t

/-- Naive comma split of a CSV line (quoting abstracted away, as no claim
exercises quoted cells). -/
def splitComma (s : String) : List String :=
  (splitOnChar ',' s.data).map (fun l => ⟨l⟩)

/-! ### The data model -/

/-- One transaction row: the five-field dict of the Python program.
`Type'` renders the `'Type'` key (`Type` is reserved in Lean). -/
structure Record where
  Date : String
  Description : String
  Type' : String
  Category : String
  Amount : ℚ
deriving DecidableEq, Repr

/-- `FIELDNAMES = ['Date', 'Description', 'Type', 'Category', 'Amount']`. -/
def FIELDNAMES : List String := ["Date", "Description", "Type", "Category", "Amount"]

/-- The expected header line, `','.join(FIELDNAMES)`. -/
def HEADER : String := joinComma FIELDNAMES

/-! ### Load and save (`load_transactions`, `save_transactions`)

`csv.DictReader` semantics captured here: the header guarantees the five
field names; each data row's cells are matched positionally, and a row with
fewer cells than fields gets `None` (here: `Option.none`) for the missing
trailing fields — the keys themselves are always present, so the
`row.setdefault(key, 'N/A')` loop in the source never fires.  `float(None)`
raises `TypeError`, which `except ValueError` does not catch; the outer
`except Exception` around the whole reading loop catches it, so the load
stops there and returns the rows accumulated so far. -/

/-- Record built from a data row's cells once the amount has been coerced.
`getD "N/A"` renders the `setdefault` back-fill; it is unreachable because
a row whose `Amount` cell exists has all five cells. -/
def recordOfCells (cells : List String) (amount : ℚ) : Record :=
  ⟨(cells[0]?).getD "N/A", (cells[1]?).getD "N/A", (cells[2]?).getD "N/A",
    (cells[3]?).getD "N/A", amount⟩

/-- The reading loop of `load_transactions` over the data rows, with the
accumulator of rows loaded so far.  A blank row is skipped by the csv
reader; a row without an `Amount` cell aborts the loop (`float(None)` is a
`TypeError`, caught only by the outer handler, which returns what was
accumulated); a row whose `Amount` cell fails to parse is skipped
(`ValueError`, caught by the inner handler). -/
def loadRows : List (List String) → List Record → List Record
  | [], acc => acc.reverse
  | cells :: rest, acc =>
    if cells = [] then loadRows rest acc
    else
      match cells[4]? with
      | none => acc.reverse
      | some s =>
        match parseFloat s with
        | none => loadRows rest acc
        | some q => loadRows rest (recordOfCells cells q :: acc)

/-- `load_transactions()` on a file whose header `ensure_csv_file` has
already validated: the first row is the header consumed by `DictReader`,
the rest are data rows. -/
def load_transactions (file : List (List String)) : List Record :=
  loadRows (file.drop 1) []

/-- Cell row written for a record by `csv.DictWriter.writerows`. -/
def renderRow (r : Record) : List String :=
  [r.Date, r.Description, r.Type', r.Category, floatStr r.Amount]

/-- `save_transactions(transactions)`: the file is truncated and rewritten
as the header row followed by one row per record, in order (the prior
`ensure_csv_file` call's effect is discarded by the `'w'` truncation). -/
def save_transactions (ts : List Record) : List (List String) :=
  FIELDNAMES :: ts.map renderRow

/-! ### Round-trip lemmas for the decimal renderer and parser -/

theorem charDigit?_digitChar {d : Nat} (h : d < 10) : charDigit? (digitChar d) = some d := by
  interval_cases d <;> decide

theorem isDigit_digitChar {d : Nat} (h : d < 10) : (digitChar d).isDigit = true := by
  interval_cases d <;> decide

theorem chVal_map_digitChar {l : List Nat} (h : ∀ x ∈ l, x < 10) :
    chVal (l.map digitChar) = some (Nat.ofDigits 10 l) := by
  induction l with
  | nil => simp [chVal, Nat.ofDigits]
  | cons d tl ih =>
    have hd : d < 10 := h d (by simp)
    have htl : ∀ x ∈ tl, x < 10 := fun x hx => h x (by simp [hx])
    simp [chVal, charDigit?_digitChar hd, ih htl, Nat.ofDigits_cons]

theorem digitsVal_natChars (n : Nat) : digitsVal (natChars n) = some n := by
  by_cases h : n = 0
  · subst h; decide
  · unfold natChars digitsVal
    rw [if_neg h, List.reverse_reverse,
      chVal_map_digitChar (fun x hx => Nat.digits_lt_base (by norm_num) hx),
      Nat.ofDigits_digits]

theorem ofDigits_replicate_zero (b j : Nat) : Nat.ofDigits b (List.replicate j 0) = 0 := by
  induction j with
  | zero => simp [Nat.ofDigits]
  | succ j ih => simp [List.replicate_succ, Nat.ofDigits_cons, ih]

theorem digits_length_le {r k : Nat} (h : r < 10 ^ k) : (Nat.digits 10 r).length ≤ k := by
  by_cases hr : r = 0
  · subst hr; simp
  · have hlog := Nat.log_lt_of_lt_pow hr h
    rw [Nat.digits_len 10 r (by norm_num) hr]
    omega

theorem digitsVal_fracChars {r k : Nat} :
    digitsVal (fracChars r k) = some r := by
  unfold digitsVal fracChars
  rw [List.reverse_reverse, chVal_map_digitChar ?_, Nat.ofDigits_append,
    Nat.ofDigits_digits, ofDigits_replicate_zero]
  · simp
  · intro x hx
    rcases List.mem_append.mp hx with h1 | h2
    · exact Nat.digits_lt_base (by norm_num) h1
    · have := List.eq_of_mem_replicate h2; omega

theorem length_fracChars {r k : Nat} (h : r < 10 ^ k) : (fracChars r k).length = k := by
  have := digits_length_le h
  unfold fracChars
  simp only [List.length_reverse, List.length_map, List.length_append, List.length_replicate]
  omega

theorem all_isDigit_natChars (n : Nat) : ∀ c ∈ natChars n, c.isDigit = true := by
  intro c hc
  by_cases h : n = 0
  · subst h; simp [natChars] at hc; subst hc; decide
  · unfold natChars at hc
    rw [if_neg h, List.mem_reverse] at hc
    obtain ⟨d, hd, rfl⟩ := List.mem_map.mp hc
    exact isDigit_digitChar (Nat.digits_lt_base (by norm_num) hd)

theorem all_isDigit_fracChars (r k : Nat) : ∀ c ∈ fracChars r k, c.isDigit = true := by
  intro c hc
  unfold fracChars at hc
  rw [List.mem_reverse] at hc
  obtain ⟨d, hd, rfl⟩ := List.mem_map.mp hc
  rcases List.mem_append.mp hd with h1 | h2
  · exact isDigit_digitChar (Nat.digits_lt_base (by norm_num) h1)
  · have := List.eq_of_mem_replicate h2
    subst this; decide

theorem natChars_ne_nil (n : Nat) : natChars n ≠ [] := by
  unfold natChars
  split
  · simp
  · simp [Nat.digits_ne_nil_iff_ne_zero, *]

theorem takeWhile_append_not {p : Char → Bool} (l₁ : List Char) (c : Char) (l₂ : List Char)
    (h : ∀ x ∈ l₁, p x = true) (hc : p c = false) :
    (l₁ ++ c :: l₂).takeWhile p = l₁ ∧ (l₁ ++ c :: l₂).dropWhile p = c :: l₂ := by
  induction l₁ with
  | nil => simp [List.takeWhile_cons, List.dropWhile_cons, hc]
  | cons a tl ih =>
    have ha : p a = true := h a (by simp)
    have htl : ∀ x ∈ tl, p x = true := fun x hx => h x (by simp [hx])
    obtain ⟨iht, ihd⟩ := ih htl
    simp [List.takeWhile_cons, List.dropWhile_cons, ha, iht, ihd]

theorem isDigit_ne_sign {c : Char} (h : c.isDigit = true) : c ≠ '-' ∧ c ≠ '+' := by
  constructor <;> rintro rfl <;> exact absurd h (by decide)

theorem parsePos_split {l₁ l₂ : List Char} {a b : Nat}
    (h₁ : ∀ c ∈ l₁, c.isDigit = true) (h₂ : ∀ c ∈ l₂, c.isDigit = true)
    (h₃ : l₁ ≠ []) (hv₁ : digitsVal l₁ = some a) (hv₂ : digitsVal l₂ = some b) :
    parsePos (l₁ ++ '.' :: l₂) = some ((a : ℚ) + (b : ℚ) / 10 ^ l₂.length) := by
  obtain ⟨ht, hd⟩ := takeWhile_append_not l₁ '.' l₂ h₁ (by decide)
  unfold parsePos
  rw [hd, ht]
  simp only [if_pos rfl, List.all_eq_true, hv₁, hv₂]
  rw [if_pos (show (∀ x ∈ l₂, x.isDigit = true) ∧ (l₁ ≠ [] ∨ l₂ ≠ []) from ⟨h₂, Or.inl h₃⟩)]
  simp

theorem parseFloatChars_floatStrChars {q : ℚ} (h : IsDecimal q) :
    parseFloatChars (floatStrChars q) = some q := by
  have hkk : decExp q.den ≤ max 1 (decExp q.den) := le_max_right _ _
  have hdvd : q.den ∣ 10 ^ max 1 (decExp q.den) :=
    dvd_trans h (pow_dvd_pow 10 hkk)
  have hden : q.den ≠ 0 := q.den_nz
  have hmd : q.num.natAbs * 10 ^ max 1 (decExp q.den) / q.den * q.den
      = q.num.natAbs * 10 ^ max 1 (decExp q.den) :=
    Nat.div_mul_cancel (Dvd.dvd.mul_left hdvd _)
  set k := max 1 (decExp q.den) with hkdef
  set m := q.num.natAbs * 10 ^ k / q.den with hmdef
  have hB : m % 10 ^ k < 10 ^ k := Nat.mod_lt _ (by positivity)
  have hAB : 10 ^ k * (m / 10 ^ k) + m % 10 ^ k = m := Nat.div_add_mod m (10 ^ k)
  have hpos : parsePos (natChars (m / 10 ^ k) ++ '.' :: fracChars (m % 10 ^ k) k)
      = some ((q.num.natAbs : ℚ) / (q.den : ℚ)) := by
    rw [parsePos_split (all_isDigit_natChars _) (all_isDigit_fracChars _ _)
      (natChars_ne_nil _) (digitsVal_natChars _) digitsVal_fracChars,
      length_fracChars hB]
    have h10 : ((10 : ℚ)) ^ k ≠ 0 := by positivity
    have hdQ : ((q.den : ℚ)) ≠ 0 := by exact_mod_cast hden
    have e1 : ((10 : ℚ)) ^ k * ((m / 10 ^ k : ℕ) : ℚ) + ((m % 10 ^ k : ℕ) : ℚ) = (m : ℚ) := by
      exact_mod_cast congrArg (fun x : ℕ => (x : ℚ)) hAB
    have e2 : (m : ℚ) * ((q.den : ℕ) : ℚ) = ((q.num.natAbs : ℕ) : ℚ) * 10 ^ k := by
      exact_mod_cast congrArg (fun x : ℕ => (x : ℚ)) hmd
    congr 1
    field_simp
    linear_combination (q.den : ℚ) * e1 + e2
  rw [show floatStrChars q = (if q.num < 0 then ['-'] else [])
      ++ natChars (m / 10 ^ k) ++ '.' :: fracChars (m % 10 ^ k) k from rfl]
  by_cases hneg : q.num < 0
  · rw [if_pos hneg, List.append_assoc, List.singleton_append]
    have hstep : parseFloatChars
        ('-' :: (natChars (m / 10 ^ k) ++ '.' :: fracChars (m % 10 ^ k) k))
        = (parsePos (natChars (m / 10 ^ k) ++ '.' :: fracChars (m % 10 ^ k) k)).map
            (fun q => -q) := by
      simp [parseFloatChars]
    rw [hstep, hpos]
    show some (-(((q.num.natAbs : ℕ) : ℚ) / ((q.den : ℕ) : ℚ))) = some q
    rw [Int.cast_natAbs, abs_of_nonpos (le_of_lt hneg)]
    push_cast
    rw [neg_div, neg_neg, Rat.num_div_den]
  · rw [if_neg hneg, List.nil_append]
    obtain ⟨c, cs, hcs⟩ := List.exists_cons_of_ne_nil (natChars_ne_nil (m / 10 ^ k))
    have hcdig : c.isDigit = true := all_isDigit_natChars _ c (by rw [hcs]; simp)
    obtain ⟨hc1, hc2⟩ := isDigit_ne_sign hcdig
    rw [hcs, List.cons_append]
    show parseFloatChars (c :: (cs ++ '.' :: fracChars (m % 10 ^ k) k)) = some q
    rw [show parseFloatChars (c :: (cs ++ '.' :: fracChars (m % 10 ^ k) k))
        = parsePos (c :: (cs ++ '.' :: fracChars (m % 10 ^ k) k)) by
      simp [parseFloatChars, hc1, hc2]]
    rw [← List.cons_append, ← hcs, hpos]
    rw [Int.cast_natAbs, abs_of_nonneg (not_lt.mp hneg), Rat.num_div_den]

/-- The renderer/parser pair is exact on decimal rationals, as Python's
`float(str(x))` round trip is on floats. -/
theorem parseFloat_floatStr {q : ℚ} (h : IsDecimal q) : parseFloat (floatStr q) = some q :=
  parseFloatChars_floatStrChars h

/-! ### Claim C1: save/load round trip -/

/-- Every valid record (decimal amount) written by `save_transactions` is
recovered verbatim by the loading loop, in order. -/
theorem loadRows_map_renderRow : ∀ ts : List Record, (∀ r ∈ ts, IsDecimal r.Amount) →
    ∀ acc : List Record, loadRows (ts.map renderRow) acc = acc.reverse ++ ts := by
  intro ts
  induction ts with
  | nil => intro _ acc; simp [loadRows]
  | cons r tl ih =>
    intro h acc
    have hr : IsDecimal r.Amount := h r (by simp)
    have htl : ∀ x ∈ tl, IsDecimal x.Amount := fun x hx => h x (by simp [hx])
    have step : loadRows (renderRow r :: tl.map renderRow) acc
        = loadRows (tl.map renderRow) (r :: acc) := by
      simp [loadRows, renderRow, recordOfCells, parseFloat_floatStr hr]
    rw [List.map_cons, step, ih htl (r :: acc)]
    simp

/-- Claim C1: for every sequence `R` of valid records (all five fields, a
decimal `Amount`), `load_transactions (save_transactions R)` yields a
sequence equal to `R` — same length, same order, every field preserved. -/
theorem C1_save_load_roundtrip (ts : List Record) (h : ∀ r ∈ ts, IsDecimal r.Amount) :
    load_transactions (save_transactions ts) = ts := by
  unfold load_transactions save_transactions
  simpa using loadRows_map_renderRow ts h []

/-- Witness for C1 at a concrete two-record sequence (one amount is the
non-integral decimal `3/2`). -/
theorem C1_witness :
    (∀ r ∈ [(⟨"2024-01-05", "Sale", "Income", "N/A", (⟨3, 2, by norm_num, by norm_num⟩ : ℚ)⟩ : Record),
        ⟨"2024-01-20", "Rent", "Expense", "Rent", (100 : ℚ)⟩], IsDecimal r.Amount)
    ∧ load_transactions (save_transactions
        [(⟨"2024-01-05", "Sale", "Income", "N/A", (⟨3, 2, by norm_num, by norm_num⟩ : ℚ)⟩ : Record),
          ⟨"2024-01-20", "Rent", "Expense", "Rent", (100 : ℚ)⟩])
      = [(⟨"2024-01-05", "Sale", "Income", "N/A", (⟨3, 2, by norm_num, by norm_num⟩ : ℚ)⟩ : Record),
          ⟨"2024-01-20", "Rent", "Expense", "Rent", (100 : ℚ)⟩] :=
  ⟨by decide, C1_save_load_roundtrip _ (by decide)⟩

/-! ### Claims C4 and C6: rows with bad or missing amounts

`loadedSpec` states the intended reading of the load loop in spec terms:
blank rows and rows whose `Amount` cell fails to parse contribute nothing,
every other row contributes its record.  It agrees with `loadRows` exactly
when every non-blank row has an `Amount` cell; a row without one makes the
Python loop abort instead (`float(None)` is a `TypeError`). -/

/-- Spec-side description of loading: keep exactly the rows whose amount
parses, in order. -/
def loadedSpec (rows : List (List String)) : List Record :=
  rows.filterMap fun cells =>
    if cells = [] then none
    else
      match cells[4]? with
      | none => none
      | some s => (parseFloat s).map (recordOfCells cells)

theorem loadRows_eq_loadedSpec : ∀ rows : List (List String),
    (∀ cells ∈ rows, cells ≠ [] → (cells[4]?).isSome) →
    ∀ acc : List Record, loadRows rows acc = acc.reverse ++ loadedSpec rows := by
  intro rows
  induction rows with
  | nil => intro _ acc; simp [loadRows, loadedSpec]
  | cons cells rest ih =>
    intro h acc
    have hrest : ∀ row ∈ rest, row ≠ [] → (row[4]?).isSome :=
      fun row hr => h row (List.mem_cons_of_mem _ hr)
    by_cases hnil : cells = []
    · subst hnil
      simp only [loadedSpec, List.filterMap_cons, if_pos rfl]
      rw [show loadRows ([] :: rest) acc = loadRows rest acc by simp [loadRows]]
      rw [ih hrest acc]
      rfl
    · obtain ⟨s, h4⟩ := Option.isSome_iff_exists.mp (h cells (List.mem_cons_self _ _) hnil)
      cases hp : parseFloat s with
      | none =>
        rw [show loadRows (cells :: rest) acc = loadRows rest acc by
          simp [loadRows, hnil, h4, hp]]
        rw [ih hrest acc]
        simp [loadedSpec, List.filterMap_cons, hnil, h4, hp]
      | some q =>
        rw [show loadRows (cells :: rest) acc
            = loadRows rest (recordOfCells cells q :: acc) by
          simp [loadRows, hnil, h4, hp]]
        rw [ih hrest (recordOfCells cells q :: acc)]
        simp [loadedSpec, List.filterMap_cons, hnil, h4, hp]

/-- Claim C4, counterexample to the statement as given: in a file whose
first data row is missing its `Amount` cell, the following row — whose
amount `"5"` parses fine and which loads on its own — is *not* loaded:
the missing amount aborts the whole loop, it is not merely skipped. -/
theorem C4_counterexample :
    load_transactions [FIELDNAMES,
      ["2024-01-01", "a", "Income", "N/A"],
      ["2024-01-02", "b", "Income", "N/A", "5"]] = []
    ∧ load_transactions [FIELDNAMES, ["2024-01-02", "b", "Income", "N/A", "5"]]
      = [⟨"2024-01-02", "b", "Income", "N/A", 5⟩] := by
  constructor <;> decide

/-- Claim C4 (amended): provided every non-blank raw row has an `Amount`
cell, a row whose `Amount` fails to parse as a decimal is skipped, no
exception reaches the caller, and all other rows are loaded in order. -/
theorem C4_load_skips_unparseable_amounts (rows : List (List String))
    (h : ∀ cells ∈ rows, cells ≠ [] → (cells[4]?).isSome) :
    load_transactions (FIELDNAMES :: rows) = loadedSpec rows := by
  unfold load_transactions
  simpa using loadRows_eq_loadedSpec rows h []

/-- Witness for C4 (amended) on a file with a bad-amount row between two
good rows: the bad row is dropped, both good rows survive. -/
theorem C4_witness :
    (∀ cells ∈ [["2024-01-01", "a", "Income", "N/A", "5"],
        ["2024-01-02", "x", "Expense", "Food", "abc"],
        ["2024-01-03", "b", "Income", "N/A", "7"]], cells ≠ [] → (cells[4]?).isSome)
    ∧ load_transactions (FIELDNAMES :: [["2024-01-01", "a", "Income", "N/A", "5"],
        ["2024-01-02", "x", "Expense", "Food", "abc"],
        ["2024-01-03", "b", "Income", "N/A", "7"]])
      = loadedSpec [["2024-01-01", "a", "Income", "N/A", "5"],
          ["2024-01-02", "x", "Expense", "Food", "abc"],
          ["2024-01-03", "b", "Income", "N/A", "7"]] :=
  ⟨by decide, C4_load_skips_unparseable_amounts _ (by decide)⟩

/-- Claim C6, the code evaluated at the failing input: a raw row missing
one of the five fields (here, four cells) is not back-filled with `N/A`
and loaded — it is dropped, and so is every row after it, because the
`DictReader` supplies `None` (not a missing key) for the absent cell and
`float(None)` raises `TypeError`, caught only by the outer handler. -/
theorem C6_missing_field_aborts_load :
    load_transactions [FIELDNAMES, ["2024-01-01", "Lunch", "Expense", "Food"],
      ["2024-01-02", "b", "Income", "N/A", "5"]] = []
    ∧ load_transactions [FIELDNAMES, ["2024-01-01", "Lunch", "Expense", "Food"]] = [] := by
  constructor <;> decide

/-! ### Claim C2: `calculate_balance` -/

/-- `calculate_balance(transactions)`: the sum printed by the source,
`+Amount` when `t['Type'].lower() == 'income'`, `-Amount` otherwise. -/
def calculate_balance (ts : List Record) : ℚ :=
  (ts.map fun t => if lowerStr t.Type' = "income" then t.Amount else -t.Amount).sum

/-- Claim C2: the balance is the sum of income amounts minus the sum of
*all* non-income amounts (any non-income type is deducted), and on
`[{Income,100}, {Expense,30}, {Transfer,10}]` it is `60`. -/
theorem C2_calculate_balance_spec :
    (∀ ts : List Record, calculate_balance ts
      = ((ts.filter fun t => lowerStr t.Type' == "income").map Record.Amount).sum
        - ((ts.filter fun t => lowerStr t.Type' != "income").map Record.Amount).sum)
    ∧ calculate_balance
        [⟨"2024-01-01", "s", "Income", "N/A", 100⟩,
          ⟨"2024-01-02", "r", "Expense", "Rent", 30⟩,
          ⟨"2024-01-03", "t", "Transfer", "N/A", 10⟩] = 60 := by
  constructor
  · intro ts
    induction ts with
    | nil => simp [calculate_balance]
    | cons t tl ih =>
      simp only [calculate_balance, List.map_cons, List.sum_cons] at ih ⊢
      by_cases hti : lowerStr t.Type' = "income"
      · have e1 : List.filter (fun t => lowerStr t.Type' == "income") (t :: tl)
            = t :: List.filter (fun t => lowerStr t.Type' == "income") tl := by
          simp [List.filter_cons, beq_iff_eq, hti]
        have e2 : List.filter (fun t => lowerStr t.Type' != "income") (t :: tl)
            = List.filter (fun t => lowerStr t.Type' != "income") tl := by
          simp [List.filter_cons, bne_iff_ne, hti]
        rw [e1, e2, List.map_cons, List.sum_cons, if_pos hti, ih]
        ring
      · have e1 : List.filter (fun t => lowerStr t.Type' == "income") (t :: tl)
            = List.filter (fun t => lowerStr t.Type' == "income") tl := by
          simp [List.filter_cons, beq_iff_eq, hti]
        have e2 : List.filter (fun t => lowerStr t.Type' != "income") (t :: tl)
            = t :: List.filter (fun t => lowerStr t.Type' != "income") tl := by
          simp [List.filter_cons, bne_iff_ne, hti]
        rw [e1, e2, List.map_cons, List.sum_cons, if_neg hti, ih]
        ring
  · have h1 : lowerStr "Income" = "income" := by decide
    have h2 : ¬lowerStr "Expense" = "income" := by decide
    have h3 : ¬lowerStr "Transfer" = "income" := by decide
    simp [calculate_balance, h1, h2, h3]
    norm_num

/-! ### Claim C3: `calculate_monthly_expenses` -/

/-- The test `t['Type'].lower() == 'expense'`. -/
def isExpense (t : Record) : Bool := lowerStr t.Type' == "expense"

/-- The grouping key built by the source: `t['Date'][:7] + " - " + t['Category']`. -/
def monthKey (t : Record) : String := takeStr 7 t.Date ++ " - " ++ t.Category

/-- `monthly[key] = monthly.get(key, 0) + t['Amount']` on an
insertion-ordered dict modelled as an association list: an existing key is
updated in place, a new key is appended. -/
def addToMonthly (m : List (String × ℚ)) (key : String) (amt : ℚ) : List (String × ℚ) :=
  if m.any (fun p => p.1 == key) then
    m.map fun p => if p.1 == key then (p.1, p.2 + amt) else p
  else m ++ [(key, amt)]

/-- Loop body of `calculate_monthly_expenses`. -/
def monthlyStep (m : List (String × ℚ)) (t : Record) : List (String × ℚ) :=
  if isExpense t then addToMonthly m (monthKey t) t.Amount else m

/-- `calculate_monthly_expenses(transactions)`: the dict built by the
source, keys in first-occurrence order. -/
def calculate_monthly_expenses (ts : List Record) : List (String × ℚ) :=
  List.foldl monthlyStep [] ts

/-- Spec-side: the value stored at a key of the association list. -/
def lookupVal (m : List (String × ℚ)) (key : String) : Option ℚ :=
  (m.find? fun p => p.1 == key).map Prod.snd

/-- Spec-side: total amount of the expense records carrying a given key. -/
def keyTotal (ts : List Record) (key : String) : ℚ :=
  ((ts.filter fun t => isExpense t && (monthKey t == key)).map Record.Amount).sum

/-- Spec-side: first-occurrence deduplication of a key list. -/
def firstOccur (ks : List String) : List String :=
  List.foldl (fun acc k1 => if k1 ∈ acc then acc else acc ++ [k1]) [] ks

theorem map_fst_addToMonthly (m : List (String × ℚ)) (key : String) (amt : ℚ) :
    (addToMonthly m key amt).map Prod.fst
      = if key ∈ m.map Prod.fst then m.map Prod.fst else m.map Prod.fst ++ [key] := by
  unfold addToMonthly
  by_cases hmem : key ∈ m.map Prod.fst
  · have hany : m.any (fun p => p.1 == key) = true := by
      rw [List.any_eq_true]
      obtain ⟨p, hp, hpk⟩ := List.mem_map.mp hmem
      exact ⟨p, hp, by simp [hpk]⟩
    rw [if_pos hany, if_pos hmem, List.map_map]
    apply List.map_congr_left
    intro p hp
    by_cases h : p.1 = key <;> simp [h]
  · have hany : ¬m.any (fun p => p.1 == key) = true := by
      rw [List.any_eq_true]
      rintro ⟨p, hp, hpk⟩
      exact hmem (List.mem_map.mpr ⟨p, hp, by simpa using hpk⟩)
    rw [if_neg hany, if_neg hmem, List.map_append]
    rfl

theorem lookupVal_addToMonthly (m : List (String × ℚ)) (key key2 : String) (amt : ℚ) :
    lookupVal (addToMonthly m key amt) key2
      = if key2 = key then some ((lookupVal m key).getD 0 + amt)
        else lookupVal m key2 := by
  unfold addToMonthly lookupVal
  by_cases hany : m.any (fun p => p.1 == key) = true
  · rw [if_pos hany]
    rw [List.find?_map]
    have hpred : (fun p : String × ℚ => p.1 == key2) ∘
        (fun p : String × ℚ => if p.1 == key then (p.1, p.2 + amt) else p)
        = fun p : String × ℚ => p.1 == key2 := by
      funext p
      by_cases h : p.1 = key <;> simp [h]
    rw [hpred]
    by_cases hk : key2 = key
    · subst hk
      obtain ⟨p0, hp0⟩ : ∃ p0, m.find? (fun p => p.1 == key2) = some p0 := by
        rw [← Option.isSome_iff_exists, List.find?_isSome]
        obtain ⟨p, hp, hpk⟩ := List.any_eq_true.mp hany
        exact ⟨p, hp, hpk⟩
      have hfst : p0.1 = key2 := by
        have := List.find?_some hp0
        simpa using this
      rw [hp0, if_pos rfl]
      simp [hfst]
    · rw [if_neg hk]
      cases hfind : m.find? (fun p => p.1 == key2) with
      | none => simp
      | some p1 =>
        have hfst : p1.1 = key2 := by
          have := List.find?_some hfind
          simpa using this
        have hne : ¬p1.1 = key := by
          rw [hfst]
          exact hk
        simp [hne]
  · rw [if_neg hany, List.find?_append]
    have hnone : m.find? (fun p => p.1 == key) = none := by
      rw [List.find?_eq_none]
      intro p hp hpk
      exact hany (List.any_eq_true.mpr ⟨p, hp, hpk⟩)
    by_cases hk : key2 = key
    · subst hk
      rw [hnone]
      simp [List.find?]
    · have h2 : List.find? (fun p => p.1 == key2) [(key, amt)] = none := by
        rw [List.find?_eq_none]
        intro p hp hpk
        simp at hp
        subst hp
        simp only [beq_iff_eq] at hpk
        exact hk hpk.symm
      rw [if_neg hk, h2, Option.or_none]

theorem keys_fold : ∀ ts : List Record, ∀ m : List (String × ℚ),
    (List.foldl monthlyStep m ts).map Prod.fst
      = List.foldl (fun acc k1 => if k1 ∈ acc then acc else acc ++ [k1])
          (m.map Prod.fst) ((ts.filter isExpense).map monthKey) := by
  intro ts
  induction ts with
  | nil => intro m; simp
  | cons t tl ih =>
    intro m
    rw [List.foldl_cons, List.filter_cons]
    by_cases hexp : isExpense t = true
    · rw [if_pos hexp, List.map_cons, List.foldl_cons]
      rw [show monthlyStep m t = addToMonthly m (monthKey t) t.Amount by
        simp [monthlyStep, hexp]]
      rw [ih (addToMonthly m (monthKey t) t.Amount), map_fst_addToMonthly]
    · rw [if_neg hexp]
      rw [show monthlyStep m t = m by simp [monthlyStep, hexp]]
      exact ih m

theorem keyTotal_cons (t : Record) (tl : List Record) (key : String) :
    keyTotal (t :: tl) key
      = (if isExpense t && (monthKey t == key) then t.Amount else 0) + keyTotal tl key := by
  unfold keyTotal
  rw [List.filter_cons]
  by_cases h : (isExpense t && (monthKey t == key)) = true <;> simp [h]

theorem keyTotal_eq_zero (tl : List Record) (key : String)
    (h : key ∉ (tl.filter isExpense).map monthKey) : keyTotal tl key = 0 := by
  unfold keyTotal
  have hnil : tl.filter (fun t => isExpense t && (monthKey t == key)) = [] := by
    rw [List.filter_eq_nil_iff]
    intro t ht hcond
    have hsplit : isExpense t = true ∧ monthKey t = key := by simpa using hcond
    apply h
    rw [List.mem_map]
    exact ⟨t, List.mem_filter.mpr ⟨ht, hsplit.1⟩, hsplit.2⟩
  rw [hnil]
  simp

theorem lookupVal_fold : ∀ (ts : List Record) (key : String) (m : List (String × ℚ)),
    lookupVal (List.foldl monthlyStep m ts) key
      = if key ∈ (ts.filter isExpense).map monthKey
        then some ((lookupVal m key).getD 0 + keyTotal ts key)
        else lookupVal m key := by
  intro ts
  induction ts with
  | nil => intro key m; simp [keyTotal]
  | cons t tl ih =>
    intro key m
    rw [List.foldl_cons, List.filter_cons, keyTotal_cons]
    by_cases hexp : isExpense t = true
    · rw [if_pos hexp]
      rw [show monthlyStep m t = addToMonthly m (monthKey t) t.Amount by
        simp [monthlyStep, hexp]]
      rw [ih key (addToMonthly m (monthKey t) t.Amount), List.map_cons]
      by_cases hk : key = monthKey t
      · subst hk
        rw [lookupVal_addToMonthly, if_pos rfl]
        rw [show (if isExpense t && (monthKey t == monthKey t) then t.Amount else 0)
            = t.Amount by simp [hexp]]
        by_cases hmem : monthKey t ∈ (tl.filter isExpense).map monthKey
        · rw [if_pos hmem, if_pos (List.mem_cons_of_mem _ hmem), Option.getD_some]
          congr 1
          ring
        · rw [if_neg hmem, if_pos (List.mem_cons_self _ _), keyTotal_eq_zero tl _ hmem]
          congr 1
          ring
      · rw [lookupVal_addToMonthly, if_neg hk]
        rw [show (if isExpense t && (monthKey t == key) then t.Amount else 0) = 0 by
          have : ¬monthKey t = key := fun hcontra => hk hcontra.symm
          simp [this]]
        by_cases hmem : key ∈ (tl.filter isExpense).map monthKey
        · rw [if_pos hmem, if_pos (List.mem_cons_of_mem _ hmem)]
          rw [zero_add]
        · rw [if_neg hmem, if_neg (by
            intro hcontra
            rcases List.mem_cons.mp hcontra with h1 | h2
            · exact hk h1
            · exact hmem h2)]
    · rw [if_neg hexp]
      rw [show monthlyStep m t = m by simp [monthlyStep, hexp]]
      rw [show (if isExpense t && (monthKey t == key) then t.Amount else 0) = 0 by
        simp [hexp]]
      rw [zero_add]
      exact ih key m

/-- Claim C3: `calculate_monthly_expenses` keeps exactly the records whose
`Type` lower-cases to `"expense"`, groups them by
`Date[:7] ++ " - " ++ Category`, sums the amounts per key, and lists the
keys in first-occurrence order. -/
theorem C3_calculate_monthly_expenses_spec (ts : List Record) :
    ((calculate_monthly_expenses ts).map Prod.fst
      = firstOccur ((ts.filter isExpense).map monthKey))
    ∧ ∀ key : String, lookupVal (calculate_monthly_expenses ts) key
        = if key ∈ (ts.filter isExpense).map monthKey
          then some (keyTotal ts key) else none := by
  constructor
  · rw [show calculate_monthly_expenses ts = List.foldl monthlyStep [] ts from rfl,
      keys_fold ts [], firstOccur]
    rfl
  · intro key
    rw [show calculate_monthly_expenses ts = List.foldl monthlyStep [] ts from rfl,
      lookupVal_fold ts key []]
    by_cases hmem : key ∈ (ts.filter isExpense).map monthKey
    · rw [if_pos hmem, if_pos hmem]
      rw [show lookupVal [] key = none from rfl]
      rw [show (Option.none.getD (0 : ℚ)) = 0 from rfl, zero_add]
    · rw [if_neg hmem, if_neg hmem]
      rfl

/-! ### Claims C7 and C10: `update_transaction` -/

/-- `update_transaction(transactions)` with the five `input()` strings
passed explicitly: raw position, replacement description, type, category
and amount.  A failed `int()` parse of the position aborts untouched
(`except ValueError`), an out-of-range position only prints; `input() or
old` keeps the old value exactly when the reply is the empty string; a
non-empty amount that fails `float()` keeps the old amount (inner
`except`); Python mutates the row in place, here the updated list is
returned. -/
def update_transaction (ts : List Record) (posStr d ty c a : String) : List Record :=
  if ts = [] then ts
  else
    match parseInt posStr with
    | none => ts
    | some pos =>
      if 0 ≤ pos - 1 ∧ pos - 1 < (ts.length : Int) then
        match ts[(pos - 1).toNat]? with
        | none => ts
        | some t =>
          ts.set (pos - 1).toNat
            ⟨t.Date,
              if d = "" then t.Description else d,
              if ty = "" then t.Type' else ty,
              if c = "" then t.Category else c,
              if a = "" then t.Amount else
                match parseFloat a with
                | some q => q
                | none => t.Amount⟩
      else ts

/-- The three trivial outcomes of `update_transaction`. -/
theorem update_transaction_nil (posStr d ty c a : String) :
    update_transaction [] posStr d ty c a = [] := by
  simp [update_transaction]

theorem update_transaction_noparse (ts : List Record) (posStr d ty c a : String)
    (hp : parseInt posStr = none) : update_transaction ts posStr d ty c a = ts := by
  by_cases hts : ts = []
  · subst hts
    exact update_transaction_nil posStr d ty c a
  · simp only [update_transaction]
    rw [if_neg hts]
    simp only [hp]

theorem update_transaction_out_of_range (ts : List Record) (posStr d ty c a : String)
    (i : Int) (hp : parseInt posStr = some i)
    (hc : ¬(0 ≤ i - 1 ∧ i - 1 < (ts.length : Int))) :
    update_transaction ts posStr d ty c a = ts := by
  by_cases hts : ts = []
  · subst hts
    exact update_transaction_nil posStr d ty c a
  · simp only [update_transaction]
    rw [if_neg hts]
    simp only [hp]
    rw [if_neg hc]

/-- In-range update characterised as a `List.set`. -/
theorem update_transaction_eq_set (ts : List Record) (posStr d ty c a : String)
    (i : Int) (t : Record) (hts : ts ≠ []) (hp : parseInt posStr = some i)
    (hc : 0 ≤ i - 1 ∧ i - 1 < (ts.length : Int))
    (hget : ts[(i - 1).toNat]? = some t) :
    update_transaction ts posStr d ty c a = ts.set (i - 1).toNat
      ⟨t.Date,
        if d = "" then t.Description else d,
        if ty = "" then t.Type' else ty,
        if c = "" then t.Category else c,
        if a = "" then t.Amount else
          match parseFloat a with
          | some q => q
          | none => t.Amount⟩ := by
  simp only [update_transaction]
  rw [if_neg hts]
  simp only [hp]
  rw [if_pos hc, hget]

theorem set_self {α : Type} (l : List α) (n : Nat) (x : α) (h : l[n]? = some x) :
    l.set n x = l := by
  induction l generalizing n with
  | nil => simp at h
  | cons y tl ih =>
    cases n with
    | zero =>
      simp at h
      subst h
      simp
    | succ n2 =>
      simp at h ⊢
      exact ih n2 h

/-- Claim C7: `update_transaction` reports an unparseable or out-of-range
position without mutating; in range, an empty reply keeps each of
Description/Type/Category, an empty amount keeps Amount, and a non-empty
amount that fails to parse keeps Amount. -/
theorem C7_update_transaction_contract (ts : List Record) (posStr d ty c a : String) :
    (parseInt posStr = none → update_transaction ts posStr d ty c a = ts)
    ∧ (∀ i : Int, parseInt posStr = some i → (i < 1 ∨ (ts.length : Int) < i) →
        update_transaction ts posStr d ty c a = ts)
    ∧ (∀ (i : Int) (t : Record), parseInt posStr = some i →
        ts[(i - 1).toNat]? = some t → 1 ≤ i → i ≤ (ts.length : Int) →
        update_transaction ts posStr d ty c a = ts.set (i - 1).toNat
          ⟨t.Date,
            if d = "" then t.Description else d,
            if ty = "" then t.Type' else ty,
            if c = "" then t.Category else c,
            if a = "" then t.Amount else
              match parseFloat a with
              | some q => q
              | none => t.Amount⟩) := by
  refine ⟨?_, ?_, ?_⟩
  · intro hnone
    exact update_transaction_noparse ts posStr d ty c a hnone
  · intro i hi hrange
    exact update_transaction_out_of_range ts posStr d ty c a i hi (by omega)
  · intro i t hi hget h1 h2
    have hts : ts ≠ [] := by
      intro hnil
      subst hnil
      simp at hget
    exact update_transaction_eq_set ts posStr d ty c a i t hts hi (by omega) hget

/-- Witness for C7: updating position 2 of a two-record list with blank
description and category, a new type and an unparseable amount. -/
theorem C7_witness :
    update_transaction
      [⟨"2024-01-01", "a", "Expense", "Food", (5 : ℚ)⟩,
        ⟨"2024-01-02", "b", "Income", "N/A", (7 : ℚ)⟩] "2" "" "Payroll" "" "xyz"
    = List.set
        [⟨"2024-01-01", "a", "Expense", "Food", (5 : ℚ)⟩,
          ⟨"2024-01-02", "b", "Income", "N/A", (7 : ℚ)⟩] 1
        ⟨"2024-01-02",
          if "" = "" then "b" else "",
          if "Payroll" = "" then "Income" else "Payroll",
          if "" = "" then "N/A" else "",
          if "xyz" = "" then (7 : ℚ) else
            match parseFloat "xyz" with
            | some q => q
            | none => (7 : ℚ)⟩ :=
  (C7_update_transaction_contract
      [⟨"2024-01-01", "a", "Expense", "Food", (5 : ℚ)⟩,
        ⟨"2024-01-02", "b", "Income", "N/A", (7 : ℚ)⟩] "2" "" "Payroll" "" "xyz").2.2
    2 ⟨"2024-01-02", "b", "Income", "N/A", (7 : ℚ)⟩
    (by decide) (by decide) (by decide) (by decide)

/-- Claim C10: `update_transaction` never changes any `Date`, and every
position other than the selected one keeps its record unchanged. -/
theorem C10_update_frame (ts : List Record) (posStr d ty c a : String) :
    ((update_transaction ts posStr d ty c a).map Record.Date = ts.map Record.Date)
    ∧ ∀ j : Nat, parseInt posStr ≠ some ((j : Int) + 1) →
        (update_transaction ts posStr d ty c a)[j]? = ts[j]? := by
  by_cases hts : ts = []
  · subst hts
    rw [update_transaction_nil]
    exact ⟨rfl, fun j hj => rfl⟩
  · cases hp : parseInt posStr with
    | none =>
      rw [update_transaction_noparse ts posStr d ty c a hp]
      exact ⟨rfl, fun j hj => rfl⟩
    | some i =>
      by_cases hc : 0 ≤ i - 1 ∧ i - 1 < (ts.length : Int)
      · cases hget : ts[(i - 1).toNat]? with
        | none =>
          exfalso
          have := List.getElem?_eq_none_iff.mp hget
          omega
        | some t =>
          rw [update_transaction_eq_set ts posStr d ty c a i t hts hp hc hget]
          constructor
          · rw [List.map_set]
            apply set_self
            rw [List.getElem?_map, hget]
            rfl
          · intro j hj
            apply List.getElem?_set_ne
            have : i ≠ (j : Int) + 1 := by
              intro hcontra
              exact hj (by rw [hcontra])
            omega
      · rw [update_transaction_out_of_range ts posStr d ty c a i hp hc]
        exact ⟨rfl, fun j hj => rfl⟩

/-- Witness for C10: position string `"2"` leaves index 0 untouched. -/
theorem C10_witness :
    ((update_transaction
        [⟨"2024-01-01", "a", "Expense", "Food", (5 : ℚ)⟩,
          ⟨"2024-01-02", "b", "Income", "N/A", (7 : ℚ)⟩] "2" "x" "y" "z" "9").map Record.Date
      = ["2024-01-01", "2024-01-02"])
    ∧ (update_transaction
        [⟨"2024-01-01", "a", "Expense", "Food", (5 : ℚ)⟩,
          ⟨"2024-01-02", "b", "Income", "N/A", (7 : ℚ)⟩] "2" "x" "y" "z" "9")[0]?
      = some ⟨"2024-01-01", "a", "Expense", "Food", (5 : ℚ)⟩ :=
  ⟨(C10_update_frame
      [⟨"2024-01-01", "a", "Expense", "Food", (5 : ℚ)⟩,
        ⟨"2024-01-02", "b", "Income", "N/A", (7 : ℚ)⟩] "2" "x" "y" "z" "9").1,
    ((C10_update_frame
      [⟨"2024-01-01", "a", "Expense", "Food", (5 : ℚ)⟩,
        ⟨"2024-01-02", "b", "Income", "N/A", (7 : ℚ)⟩] "2" "x" "y" "z" "9").2 0 (by decide))⟩

/-! ### Claim C8: the add constructors abort when the amount fails to parse -/

/-- `add_income(transactions)` with the `input()` strings and today's date
passed explicitly.  The appended Python dict has no `'Category'` key;
`csv.DictWriter` later renders the missing key as the empty string, which
is how the record is modelled here. -/
def add_income (ts : List Record) (dateStr desc amountStr today : String) : List Record :=
  let date_str := if dateStr = "" then today else dateStr
  match parseFloat amountStr with
  | none => ts
  | some amount => ts ++ [⟨date_str, desc, "Income", "", amount⟩]

/-- `add_expense(transactions)`: as `add_income`, with the category
defaulting to `"Expense"` on a blank reply. -/
def add_expense (ts : List Record) (dateStr desc catStr amountStr today : String) :
    List Record :=
  let date_str := if dateStr = "" then today else dateStr
  let category := if catStr = "" then "Expense" else catStr
  match parseFloat amountStr with
  | none => ts
  | some amount => ts ++ [⟨date_str, desc, "Expense", category, amount⟩]

/-- `add_payroll(transactions)`: synthesised expense record for an
employee, dated today. -/
def add_payroll (ts : List Record) (employee salaryStr today : String) : List Record :=
  match parseFloat salaryStr with
  | none => ts
  | some salary => ts ++ [⟨today, "Payroll - " ++ employee, "Expense", "Payroll", salary⟩]

/-- Claim C8: all three constructors abort the mutation — append nothing,
leave the sequence exactly unchanged — when the entered amount fails to
parse as a decimal. -/
theorem C8_add_aborts_on_bad_amount (ts : List Record)
    (dateStr desc catStr employee amountStr today : String)
    (h : parseFloat amountStr = none) :
    add_income ts dateStr desc amountStr today = ts
    ∧ add_expense ts dateStr desc catStr amountStr today = ts
    ∧ add_payroll ts employee amountStr today = ts := by
  refine ⟨?_, ?_, ?_⟩ <;> simp [add_income, add_expense, add_payroll, h]

/-- Witness for C8 with the unparseable amount `"abc"`. -/
theorem C8_witness :
    parseFloat "abc" = none
    ∧ (add_income [] "2024-01-01" "item" "abc" "2024-05-05" = []
      ∧ add_expense [] "2024-01-01" "item" "Rent" "abc" "2024-05-05" = []
      ∧ add_payroll [] "Ana" "abc" "2024-05-05" = []) :=
  ⟨by decide,
    C8_add_aborts_on_bad_amount [] "2024-01-01" "item" "Rent" "Ana" "abc" "2024-05-05"
      (by decide)⟩

/-! ### Claims C5 and C9: `ensure_csv_file`

The file is a `List String` of physical lines here (`none` = file absent).
The repair branch re-reads the file with a `DictReader` whose fieldnames
come from the file's own (mismatched) first line; the recovered dicts are
then handed to `DictWriter.writerows`, which raises `ValueError` for any
dict key outside `FIELDNAMES` — and that call sits *outside* the
`try/except` that guards only the reading.  `readFails` models an
exception while re-reading the file, which the `except Exception: pass`
swallows, leaving zero recovered rows. -/

/-- Key check done by `csv.DictWriter.writerows` on a recovered dict: every
fieldname of the malformed file must be one of `FIELDNAMES`, and the row
must not overflow into the `restkey` (`None`) entry. -/
def dictRowKeysOk (fieldnames cells : List String) : Bool :=
  fieldnames.all (fun f => FIELDNAMES.contains f)
    && decide (cells.length ≤ fieldnames.length)

/-- Row written by the repair for one recovered dict: each of the five
fields looked up in the dict, absent keys and `None` values written as
the empty string (`restval`). -/
def renderRepairRow (fieldnames cells : List String) : List String :=
  FIELDNAMES.map fun f =>
    match fieldnames.indexOf? f with
    | some j => (cells[j]?).getD ""
    | none => ""

/-- `ensure_csv_file()` as a function of the file state, returning the
resulting file or the uncaught `ValueError` of the repair's write. -/
def ensure_csv_file (file : Option (List String)) (readFails : Bool) :
    Except String (List String) :=
  match file with
  | none => Except.ok [HEADER]
  | some lines =>
    if stripStr (lines.headD "") = HEADER then Except.ok lines
    else
      let fieldnames := splitComma (lines.headD "")
      let dataRows :=
        if readFails then []
        else ((lines.drop 1).filter (fun ln => ln != "")).map splitComma
      if dataRows.all (fun cells => dictRowKeysOk fieldnames cells) then
        Except.ok (HEADER ::
          dataRows.map (fun cells => joinComma (renderRepairRow fieldnames cells)))
      else Except.error "ValueError: dict contains fields not in fieldnames"

/-- Claim C5, the code evaluated at the failing input: repairing the file
whose lines are `["Foo", "1"]` raises (the recovered dict's key `"Foo"` is
not in `FIELDNAMES`, and `writer.writerows(data)` sits outside the
`try`/`except`), while the same repair with a failing re-read degrades to
zero recovered rows and succeeds — so it is exactly the write step, not
the guarded read, that escapes. -/
theorem C5_repair_write_raises :
    ensure_csv_file (some ["Foo", "1"]) false
      = Except.error "ValueError: dict contains fields not in fieldnames"
    ∧ ensure_csv_file (some ["Foo", "1"]) true = Except.ok [HEADER] :=
  ⟨rfl, rfl⟩

/-- Claim C9: when the first line already equals the comma-joined field
list, `ensure_csv_file` returns the file unchanged, and running it again
on the result is again the identity. -/
theorem C9_ensure_noop (lines : List String) (readFails : Bool)
    (h : lines.headD "" = HEADER) :
    ensure_csv_file (some lines) readFails = Except.ok lines
    ∧ ∀ (lines2 : List String) (readFails2 : Bool),
        ensure_csv_file (some lines) readFails = Except.ok lines2 →
        ensure_csv_file (some lines2) readFails2 = Except.ok lines2 := by
  have hstrip : stripStr (lines.headD "") = HEADER := by
    rw [h]
    decide
  have hfirst : ensure_csv_file (some lines) readFails = Except.ok lines := by
    simp only [ensure_csv_file]
    rw [if_pos hstrip]
  refine ⟨hfirst, ?_⟩
  intro lines2 rf2 h2
  rw [hfirst] at h2
  injection h2 with h2eq
  subst h2eq
  simp only [ensure_csv_file]
  rw [if_pos hstrip]

/-- Witness for C9 on a correct-header file with one data row. -/
theorem C9_witness :
    (["Date,Description,Type,Category,Amount",
        "2024-01-01,a,Income,N/A,5.0"].headD "" = HEADER)
    ∧ ensure_csv_file (some ["Date,Description,Type,Category,Amount",
        "2024-01-01,a,Income,N/A,5.0"]) false
      = Except.ok ["Date,Description,Type,Category,Amount",
          "2024-01-01,a,Income,N/A,5.0"] :=
  ⟨by decide,
    (C9_ensure_noop ["Date,Description,Type,Category,Amount",
      "2024-01-01,a,Income,N/A,5.0"] false (by decide)).1⟩
